import Mathlib

/-!
Shallow embedding of the `django_lifecycle` package (hook registration in
`decorators.py`, condition evaluation and lifecycle dispatch in `mixins.py`),
together with theorems settling the specification claims about it.

Python runtime values are embedded as the inductive type `Py`; Python `==`
is embedded as `pyEq` (value equality on literals, identity on function
objects, which is exactly Python's default function equality).  Hook bodies
are embedded as state transformers that may raise (`Except`), and the
save/delete wrappers produce a trace of observable actions (hook
invocations — the `fired` list of the source — plus the delegate
persistence call and the snapshot refresh) so that ordering and
abort-before-persistence properties can be stated.
-/

namespace DjangoLifecycle

/-- Embedding of the Python values that can reach the hook machinery:
strings, ints, bools, `None`, lists, tuples, related objects (an attribute
dictionary), function objects (identified by a tag, since Python compares
functions by identity), and the `NotSet` sentinel class. -/
inductive Py where
  | pystr (s : String)
  | pyint (n : Int)
  | pybool (b : Bool)
  | pynone
  | pylist (xs : List Py)
  | pytuple (xs : List Py)
  | pyobj (fields : List (String × Py))
  | pyfunc (tag : Nat)
  | pynotset

mutual

/-- Python `==` on the embedded values: structural on literals and
containers, identity (tag equality) on function objects, and `True == 1`,
`False == 0` as in Python.  Distinct constructors compare unequal. -/
def pyEq : Py → Py → Bool
  | .pystr a, .pystr b => a == b
  | .pyint a, .pyint b => a == b
  | .pybool a, .pybool b => a == b
  | .pybool a, .pyint b => (if a then (1 : Int) else 0) == b
  | .pyint a, .pybool b => a == (if b then (1 : Int) else 0)
  | .pynone, .pynone => true
  | .pylist a, .pylist b => pyEqList a b
  | .pytuple a, .pytuple b => pyEqList a b
  | .pyobj a, .pyobj b => pyEqFields a b
  | .pyfunc i, .pyfunc j => i == j
  | .pynotset, .pynotset => true
  | _, _ => false

/-- Elementwise `pyEq` on lists of values. -/
def pyEqList : List Py → List Py → Bool
  | [], [] => true
  | x :: xs, y :: ys => pyEq x y && pyEqList xs ys
  | _, _ => false

/-- Elementwise `pyEq` on attribute dictionaries. -/
def pyEqFields : List (String × Py) → List (String × Py) → Bool
  | [], [] => true
  | (k, v) :: xs, (l, w) :: ys => k == l && pyEq v w && pyEqFields xs ys
  | _, _ => false

end

/-- Python `x in (a, b, ...)`: membership by `pyEq`. -/
def pyIn (x : Py) (xs : List Py) : Bool :=
  xs.any (fun y => pyEq x y)

/-- Python `x is None`. -/
def pyIsNone : Py → Bool
  | .pynone => true
  | _ => false

/-- Python `x is NotSet` (identity with the `NotSet` sentinel class). -/
def pyIsNotSet : Py → Bool
  | .pynotset => true
  | _ => false

/-- Python `isinstance(x, str)`. -/
def isStr : Py → Bool
  | .pystr _ => true
  | _ => false

/-- Python `isinstance(x, bool)`. -/
def isBool : Py → Bool
  | .pybool _ => true
  | _ => false

/-- Modelled from the spec: the module enumerating the lifecycle events
(`hooks.py`, which provides the event-name constants and `VALID_HOOKS`) is
not among the sources; the spec's glossary fixes the closed enumeration
`before_create, after_create, before_update, after_update, before_save,
after_save, before_delete, after_delete`. -/
def VALID_HOOKS : List String :=
  ["before_create", "after_create", "before_update", "after_update",
   "before_save", "after_save", "before_delete", "after_delete"]

/-- `VALID_HOOKS` as Python string values, as `spec.hook_name not in
VALID_HOOKS` compares them. -/
def validHooksPy : List Py :=
  VALID_HOOKS.map Py.pystr

/-- Modelled from the spec (constant of the missing `hooks.py`). -/
def BEFORE_CREATE : String := "before_create"

/-- Modelled from the spec (constant of the missing `hooks.py`). -/
def AFTER_CREATE : String := "after_create"

/-- Modelled from the spec (constant of the missing `hooks.py`). -/
def BEFORE_UPDATE : String := "before_update"

/-- Modelled from the spec (constant of the missing `hooks.py`). -/
def AFTER_UPDATE : String := "after_update"

/-- Modelled from the spec (constant of the missing `hooks.py`). -/
def BEFORE_SAVE : String := "before_save"

/-- Modelled from the spec (constant of the missing `hooks.py`). -/
def AFTER_SAVE : String := "after_save"

/-- Modelled from the spec (constant of the missing `hooks.py`). -/
def BEFORE_DELETE : String := "before_delete"

/-- Modelled from the spec (constant of the missing `hooks.py`). -/
def AFTER_DELETE : String := "after_delete"

/-- The `HookSpec` named tuple exactly as the `hook(...)` call builds it,
before validation: every field holds an arbitrary Python value.
Field order and names follow the `NamedTuple` declaration in
`__init__.py`; `Py.pynone` stands for an omitted optional argument and
`Py.pynotset` for the `NotSet` default. -/
structure RawHookSpec where
  hook_name : Py
  when : Py
  when_any : Py
  was : Py
  is_now : Py
  has_changed : Py
  is_not : Py
  was_not : Py
  changes_to : Py

/-- `_validate_hook_params` from `decorators.py`: the decoration-time
checks, in source order, each raising `DjangoLifeCycleException`
(embedded as `Except.error` with the message). -/
def validate_hook_params (spec : RawHookSpec) : Except String Unit :=
  if ¬ pyIn spec.hook_name validHooksPy then
    Except.error "is not a valid hook"
  else if ¬ pyIsNone spec.has_changed ∧ ¬ isBool spec.has_changed then
    Except.error "'has_changed' hook param must be a boolean"
  else if ¬ pyIsNone spec.when ∧ ¬ isStr spec.when then
    Except.error "'when' hook param must be a string matching the name of a model field"
  else if ¬ pyIsNone spec.when_any then
    match spec.when_any with
    | .pylist xs =>
      if xs.length == 0 then
        Except.error "'when_any' hook param must contain at least one field name"
      else if xs.any (fun x => !(isStr x)) then
        Except.error "'when_any' hook param must be a list of strings"
      else if ¬ pyIsNone spec.when then
        Except.error "Can pass either 'when' or 'when_any' but not both"
      else
        Except.ok ()
    | _ => Except.error "'when_any' hook param must be a list of strings"
  else
    Except.ok ()

/-- The typed view of a validated `HookSpec`, following the type
annotations of the `NamedTuple` in `__init__.py`: `when` an optional
string, `when_any` an optional list of field-name strings, `has_changed`
an optional bool; the value-condition slots stay arbitrary Python values
(the defaults are the `"*"` wildcard string and the `NotSet` sentinel). -/
structure HookSpec where
  hook_name : String
  when : Option String
  when_any : Option (List String)
  was : Py
  is_now : Py
  has_changed : Option Bool
  is_not : Py
  was_not : Py
  changes_to : Py

/-- Reading a raw, already validated spec at its declared types; ill-typed
fields — unreachable once `validate_hook_params` passed — collapse to the
omitted-argument defaults. -/
def rawToTyped (r : RawHookSpec) : HookSpec :=
  { hook_name := match r.hook_name with | .pystr s => s | _ => ""
    when := match r.when with | .pystr s => some s | _ => none
    when_any :=
      match r.when_any with
      | .pylist xs => some (xs.filterMap (fun x => match x with | .pystr s => some s | _ => none))
      | _ => none
    was := r.was
    is_now := r.is_now
    has_changed := match r.has_changed with | .pybool b => some b | _ => none
    is_not := r.is_not
    was_not := r.was_not
    changes_to := r.changes_to }

/-- The `hook(...)` registration call from `decorators.py`: it builds the
spec, validates it at decoration time (raising — `Except.error` — on any
invalid parameter before any decorator is returned), and otherwise yields
the spec that the returned decorator will attach. -/
def hook (r : RawHookSpec) : Except String HookSpec :=
  (validate_hook_params r).map (fun _ => rawToTyped r)

/-- One model instance: its attribute dictionary (`self.__dict__`, the
persisted fields, foreign keys stored under their `_id` attribute name and
cached related objects as `Py.pyobj` values), the `_state.adding` flag the
dispatcher reads to distinguish create from update, and the
`_initial_state` snapshot taken at construction and after each save.
The internal bookkeeping keys (`_state`, `_initial_state`) that
`_snapshot_state` deletes from its copy of `__dict__` are held in the
separate structure fields rather than in `attrs`. -/
structure Instance where
  attrs : List (String × Py)
  adding : Bool
  initial_state : List (String × Py)

/-- A hook callback body: it may mutate the instance and may raise (an
application error, carried as the message). -/
def HookBody : Type := Instance → Except String Instance

/-- The `HookedMethod` wrapper of `decorators.py`: the callback's name,
the accumulated `_hooked` list of specs, and the underlying callable. -/
structure Method where
  name : String
  specs : List HookSpec
  body : HookBody

/-- What the `@hook` decorator receives: either the plain function (first
decorator in application order) or an already wrapped `HookedMethod`. -/
inductive HookTarget where
  | plainFn (name : String) (body : HookBody)
  | hooked (m : Method)

/-- `HookedMethod.__init__`: reuse the wrapped method's `_hooked` list
when the target is already a `HookedMethod`, else start from `[]`, and
append the new spec (the FIFO append of the source). -/
def HookedMethodInit (f : HookTarget) (spec : HookSpec) : Method :=
  match f with
  | .plainFn n b => { name := n, specs := [spec], body := b }
  | .hooked m => { name := m.name, specs := m.specs ++ [spec], body := m.body }

/-- Applying a stack of `@hook` decorators written top-to-bottom in the
source: Python applies decorators bottom-up, so the innermost application
is the bottom-most (last-listed) spec. -/
def applyHookStack : List HookSpec → HookTarget → HookTarget
  | [], f => f
  | s :: rest, f => HookTarget.hooked (HookedMethodInit (applyHookStack rest f) s)

/-- The spec list a target carries (`HookedMethod.specs`, empty for an
undecorated function). -/
def HookTarget.specsOf : HookTarget → List HookSpec
  | .plainFn _ _ => []
  | .hooked m => m.specs

/-- The class-level data the mixin consults: which field names have
internal type `ForeignKey` (the `_meta.get_field` metadata of the host
framework) and the `HookedMethod` attributes collected from `dir(cls)`. -/
structure ModelClass where
  fkFields : List String
  methodsList : List Method

/-- Character-level splitter underlying `splitOnChar`. -/
def splitChars (sep : Char) : List Char → List (List Char)
  | [] => [[]]
  | c :: rest =>
    match splitChars sep rest with
    | [] => [[]]
    | p :: ps => if c == sep then [] :: p :: ps else (c :: p) :: ps

/-- Executable embedding of Python's `field_name.split(".")` (with a
one-character separator, which is all the source uses). -/
def splitOnChar (s : String) (sep : Char) : List String :=
  (splitChars sep s.data).map (fun cs => String.mk cs)

/-- Executable embedding of Python's `"." in field_name`. -/
def containsChar (s : String) (c : Char) : Bool :=
  s.data.contains c

/-- Suffix test on character lists. -/
def listIsSuffix (suffix l : List Char) : Bool :=
  Nat.ble suffix.length l.length && (l.drop (l.length - suffix.length) == suffix)

/-- Executable embedding of Python's `field_name.endswith("_id")`. -/
def strEndsWith (s suffix : String) : Bool :=
  listIsSuffix suffix.data s.data

/-- Dictionary lookup on an attribute list (Python `dict` access /
`getattr` against `__dict__`). -/
def lookupS (xs : List (String × Py)) (k : String) : Option Py :=
  match xs with
  | [] => none
  | (l, v) :: rest => if l == k then some v else lookupS rest k

/-- Python `d[k] = v` on an insertion-ordered dictionary: replace in
place when the key exists, append otherwise. -/
def upsert (xs : List (String × Py)) (k : String) (v : Py) : List (String × Py) :=
  match xs with
  | [] => [(k, v)]
  | (l, w) :: rest => if l == k then (l, v) :: rest else (l, w) :: upsert rest k v

/-- `_sanitize_field_name`: map a foreign-key field's logical name to its
stored `_id` attribute name unless it already ends in `_id`; a name that
is no field at all (`FieldDoesNotExist` caught) is returned unchanged. -/
def sanitize_field_name (c : ModelClass) (name : String) : String :=
  if c.fkFields.contains name && !(strEndsWith name "_id") then name ++ "_id" else name

/-- The `getitem` step of `_current_value`'s dotted-path reduction:
`getattr(obj, name)` with `AttributeError` / `ObjectDoesNotExist` caught
and turned into `None` — on a non-object (including `None` itself) or a
missing attribute the step yields `Py.pynone`. -/
def getitem (v : Py) (name : String) : Py :=
  match v with
  | .pyobj fields => (lookupS fields name).getD Py.pynone
  | _ => Py.pynone

/-- `reduce(getitem, field_name.split("."), self)`: the first part is read
off the instance's attributes (missing attribute caught to `None`), the
remaining parts step through `getitem`. -/
def resolvePath (i : Instance) (parts : List String) : Py :=
  match parts with
  | [] => Py.pynone
  | p :: rest => rest.foldl getitem ((lookupS i.attrs p).getD Py.pynone)

/-- `_current_value`: dotted names are resolved through the null-tolerant
path reduction; plain names are read from the instance's attributes after
foreign-key name sanitization. -/
def current_value (c : ModelClass) (i : Instance) (field_name : String) : Py :=
  if containsChar field_name '.' then resolvePath i (splitOnChar field_name '.')
  else (lookupS i.attrs (sanitize_field_name c field_name)).getD Py.pynone

/-- `_watched_fk_model_fields`: every dotted `when` selector of every
spec of every hooked method.  (The source walks the flattened values of
the per-event dictionary, which enumerates the same specs, possibly with
repetition; only `spec.when` is inspected — `when_any` is not.) -/
def watched_fk_model_fields (c : ModelClass) : List String :=
  c.methodsList.foldl
    (fun acc m =>
      m.specs.foldl
        (fun acc2 s =>
          match s.when with
          | some w => if containsChar w '.' then acc2 ++ [w] else acc2
          | none => acc2)
        acc)
    []

/-- `_snapshot_state`: a copy of `__dict__` (without the `_state` and
`_initial_state` bookkeeping entries, which live outside `attrs` here)
extended with the resolved current value of every watched dotted field. -/
def snapshot_state (c : ModelClass) (i : Instance) : List (String × Py) :=
  (watched_fk_model_fields c).foldl
    (fun st w => upsert st w (current_value c i w)) i.attrs

/-- `initial_value`: the recorded prior value of a (sanitized) field,
`None` when the snapshot has no such key. -/
def initial_value (c : ModelClass) (i : Instance) (field_name : String) : Py :=
  (lookupS i.initial_state (sanitize_field_name c field_name)).getD Py.pynone

/-- `_diff_with_initial`: the keys of the initial snapshot whose value
differs (Python `!=`) from the fresh snapshot, with both values. -/
def diff_with_initial (c : ModelClass) (i : Instance) : List (String × (Py × Py)) :=
  i.initial_state.filterMap
    (fun kv =>
      match lookupS (snapshot_state c i) kv.1 with
      | some cur => if !(pyEq kv.2 cur) then some (kv.1, (kv.2, cur)) else none
      | none => none)

/-- `has_changed`: whether the (sanitized) field is one of the changed
keys of the diff. -/
def has_changed (c : ModelClass) (i : Instance) (field_name : String) : Bool :=
  (diff_with_initial c i).any (fun kv => kv.1 == sanitize_field_name c field_name)

/-- `_check_has_changed`: vacuous when the flag is unset, otherwise the
flag must equal the field's diff membership. -/
def check_has_changed (c : ModelClass) (i : Instance) (field_name : String)
    (spec : HookSpec) : Bool :=
  match spec.has_changed with
  | none => true
  | some hc => hc == has_changed c i field_name

/-- `_check_is_now_condition`: `spec.is_now in (current_value, "*")` —
a plain Python membership test by equality; nothing is ever called. -/
def check_is_now_condition (c : ModelClass) (i : Instance) (field_name : String)
    (spec : HookSpec) : Bool :=
  pyIn spec.is_now [current_value c i field_name, Py.pystr "*"]

/-- `_check_is_not_condition`: pass when unset or when the current value
differs (`!=`) from the supplied value. -/
def check_is_not_condition (c : ModelClass) (i : Instance) (field_name : String)
    (spec : HookSpec) : Bool :=
  pyIsNotSet spec.is_not || !(pyEq (current_value c i field_name) spec.is_not)

/-- `_check_was_condition`: `spec.was in (initial_value, "*")`. -/
def check_was_condition (c : ModelClass) (i : Instance) (field_name : String)
    (spec : HookSpec) : Bool :=
  pyIn spec.was [initial_value c i field_name, Py.pystr "*"]

/-- `_check_was_not_condition`: pass when unset or when the initial value
differs (`!=`) from the supplied value. -/
def check_was_not_condition (c : ModelClass) (i : Instance) (field_name : String)
    (spec : HookSpec) : Bool :=
  pyIsNotSet spec.was_not || !(pyEq (initial_value c i field_name) spec.was_not)

/-- `_check_changes_to_condition`: unset, or the initial value differs
from the target while the current value equals it. -/
def check_changes_to_condition (c : ModelClass) (i : Instance) (field_name : String)
    (spec : HookSpec) : Bool :=
  pyIsNotSet spec.changes_to ||
    (!(pyEq (initial_value c i field_name) spec.changes_to) &&
      pyEq (current_value c i field_name) spec.changes_to)

/-- `_check_callback_conditions`: all six checks, in the early-return
order of the source. -/
def check_callback_conditions (c : ModelClass) (i : Instance) (field_name : String)
    (spec : HookSpec) : Bool :=
  check_has_changed c i field_name spec &&
  check_is_now_condition c i field_name spec &&
  check_was_condition c i field_name spec &&
  check_was_not_condition c i field_name spec &&
  check_is_not_condition c i field_name spec &&
  check_changes_to_condition c i field_name spec

/-- The observable steps of a save/delete call: a hook invocation (one
entry of the dispatcher's `fired` list), the delegated persistence write,
the delegated delete, and the snapshot refresh that ends a hooked save. -/
inductive Action where
  | hookCalled (methodName : String)
  | delegateSave
  | delegateDelete
  | snapshotRefresh
deriving DecidableEq

/-- Result of a (partial) lifecycle run: the final instance and trace on
success, or the propagated application error together with the instance
and the trace of the steps performed before the raise. -/
inductive Outcome where
  | ok (i : Instance) (trace : List Action)
  | err (e : String) (i : Instance) (trace : List Action)

/-- The trace of an outcome, successful or not. -/
def Outcome.trace : Outcome → List Action
  | .ok _ t => t
  | .err _ _ t => t

/-- Prefix an already performed trace onto an outcome. -/
def Outcome.withPre (t : List Action) : Outcome → Outcome
  | .ok i t2 => .ok i (t ++ t2)
  | .err e i t2 => .err e i (t ++ t2)

/-- Sequence two steps: the second runs only when the first succeeded,
and the first step's trace stays in front; an error short-circuits. -/
def Outcome.andThen (o : Outcome) (f : Instance → Outcome) : Outcome :=
  match o with
  | .ok i t => (f i).withPre t
  | .err e i t => .err e i t

/-- `method(self)`: invoke the callback, recording the invocation (the
`fired.append`) whether or not the body raises. -/
def callMethod (m : Method) (i : Instance) : Outcome :=
  match m.body i with
  | .ok i2 => .ok i2 [.hookCalled m.name]
  | .error e => .err e i [.hookCalled m.name]

/-- The `for field_name in when_any_field` loop of `_run_hooked_methods`:
each watched field is checked against the spec in the instance state as
of that iteration, and the method is invoked for every field that
matches. -/
def runAnyFields (c : ModelClass) (m : Method) (spec : HookSpec) :
    List String → Instance → Outcome
  | [], i => .ok i []
  | f :: rest, i =>
    if check_callback_conditions c i f spec then
      (callMethod m i).andThen (runAnyFields c m spec rest)
    else
      runAnyFields c m spec rest i

/-- Python truthiness of the `when` slot (`if when_field:`): a present,
non-empty string. -/
def whenTruthy : Option String → Bool
  | some s => s != ""
  | none => false

/-- Python truthiness of the `when_any` slot (`elif when_any_field:`): a
present, non-empty list. -/
def whenAnyTruthy : Option (List String) → Bool
  | some l => !l.isEmpty
  | none => false

/-- One spec of one method inside `_run_hooked_methods`: a truthy single
selector checks that field, a truthy multi selector loops over its
fields, and an absent selector fires unconditionally. -/
def runOneSpec (c : ModelClass) (m : Method) (spec : HookSpec) (i : Instance) : Outcome :=
  if whenTruthy spec.when then
    if check_callback_conditions c i (spec.when.getD "") spec then callMethod m i
    else .ok i []
  else if whenAnyTruthy spec.when_any then
    runAnyFields c m spec (spec.when_any.getD []) i
  else
    callMethod m i

/-- The `for spec in method.specs` loop: every spec attached to the
method is evaluated, whatever event it names. -/
def runSpecList (c : ModelClass) (m : Method) : List HookSpec → Instance → Outcome
  | [], i => .ok i []
  | spec :: rest, i => (runOneSpec c m spec i).andThen (runSpecList c m rest)

/-- The outer loop of `_run_hooked_methods` over the methods collected
for the event (one occurrence per spec naming the event). -/
def runMethodList (c : ModelClass) : List Method → Instance → Outcome
  | [], i => .ok i []
  | m :: ms, i => (runSpecList c m m.specs i).andThen (runMethodList c ms)

/-- `collected[hook_name].append(attr)` on the insertion-ordered
`defaultdict(list)`. -/
def dictAppend (d : List (String × List Method)) (k : String) (m : Method) :
    List (String × List Method) :=
  match d with
  | [] => [(k, [m])]
  | (l, ms) :: rest =>
    if l == k then (l, ms ++ [m]) :: rest else (l, ms) :: dictAppend rest k m

/-- The dictionary that `_potentially_hooked_methods` builds: for every
`HookedMethod` attribute and every one of its specs, the method is
appended under that spec's event name. -/
def collectHooked (c : ModelClass) : List (String × List Method) :=
  c.methodsList.foldl
    (fun d m => m.specs.foldl (fun d2 s => dictAppend d2 s.hook_name m) d) []

/-- Lookup in the collected dictionary (`.get(hook_name, [])`). -/
def lookupMethods (d : List (String × List Method)) (k : String) : List Method :=
  match d with
  | [] => []
  | (l, ms) :: rest => if l == k then ms else lookupMethods rest k

/-- `_potentially_hooked_methods.get(hook_name, [])`: the methods the
dispatcher will iterate for the event, one occurrence per spec naming
it. -/
def potentially_hooked_methods (c : ModelClass) (hook_name : String) : List Method :=
  lookupMethods (collectHooked c) hook_name

/-- `_run_hooked_methods(hook_name)`. -/
def run_hooked_methods (c : ModelClass) (i : Instance) (hook_name : String) : Outcome :=
  runMethodList c (potentially_hooked_methods c hook_name) i

/-- The host framework's `super().save(...)`: writes the row and marks
the instance as persisted (`_state.adding` becomes false). -/
def delegateSave (i : Instance) : Instance :=
  { i with adding := false }

/-- `_clear_watched_fk_model_cache`: asks the host framework to drop its
cached related objects so hooks re-read fresh data during the save; it is
an external cache concern with no effect on the embedded state. -/
def clear_watched_fk_model_cache (i : Instance) : Instance := i

/-- `self._initial_state = self._snapshot_state()` at the end of a hooked
save. -/
def refreshSnapshot (c : ModelClass) (i : Instance) : Instance :=
  { i with initial_state := snapshot_state c i }

/-- `LifecycleModelMixin.save`: the `skip_hooks` bypass goes straight to
the delegate; otherwise the dispatcher runs the create- or update-side
before event, `before_save`, the delegate write, `after_save`, the
create- or update-side after event, and finally refreshes the snapshot. -/
def save (c : ModelClass) (i : Instance) (skip_hooks : Bool) : Outcome :=
  if skip_hooks then
    .ok (delegateSave i) [.delegateSave]
  else
    let i0 := clear_watched_fk_model_cache i
    (run_hooked_methods c i0 (if i0.adding then BEFORE_CREATE else BEFORE_UPDATE)).andThen
      fun i1 =>
        (run_hooked_methods c i1 BEFORE_SAVE).andThen fun i2 =>
          (Outcome.ok (delegateSave i2) [Action.delegateSave]).andThen fun i3 =>
            (run_hooked_methods c i3 AFTER_SAVE).andThen fun i4 =>
              (run_hooked_methods c i4 (if i0.adding then AFTER_CREATE else AFTER_UPDATE)).andThen
                fun i5 => Outcome.ok (refreshSnapshot c i5) [Action.snapshotRefresh]

/-- `LifecycleModelMixin.delete`: `before_delete`, the delegated delete,
`after_delete`; no snapshot refresh. -/
def delete (c : ModelClass) (i : Instance) : Outcome :=
  (run_hooked_methods c i BEFORE_DELETE).andThen fun i1 =>
    (Outcome.ok i1 [Action.delegateDelete]).andThen fun i2 =>
      run_hooked_methods c i2 AFTER_DELETE

/-- The current-value (and, applied to the initial value, prior-value)
check as the specification words it: the wildcard always matches, a
callable condition is invoked on the value and must return truthy, and
any other condition must equal the value.  `env` gives each function
object its behaviour.  This definition follows the spec's sentence, to be
compared with `check_is_now_condition` / `check_was_condition` from the
source. -/
def claimValueCheck (env : Nat → Py → Bool) (cond : Py) (v : Py) : Bool :=
  if pyEq cond (Py.pystr "*") then true
  else
    match cond with
    | .pyfunc k => env k v
    | other => pyEq other v

/-- The dotted relationship paths referenced by registered hooks as the
claim words it: paths appearing in single-field `when` selectors or
inside multi-field `when_any` selectors.  This definition follows the
claim's sentence, to be compared with `watched_fk_model_fields` from the
source. -/
def claimReferencedDottedPaths (c : ModelClass) : List String :=
  c.methodsList.foldl
    (fun acc m =>
      m.specs.foldl
        (fun acc2 s =>
          (acc2 ++
            (match s.when with
             | some w => if containsChar w '.' then [w] else []
             | none => [])) ++
          (match s.when_any with
           | some ws => ws.filter (fun w => containsChar w '.')
           | none => []))
        acc)
    []

/-- A spec with only an event name: every selector and condition at its
omitted-argument default (`when=None, when_any=None, was="*", is_now="*",
has_changed=None, is_not=NotSet, was_not=NotSet, changes_to=NotSet`). -/
def defaultSpec (ev : String) : HookSpec :=
  { hook_name := ev, when := none, when_any := none,
    was := Py.pystr "*", is_now := Py.pystr "*", has_changed := none,
    is_not := Py.pynotset, was_not := Py.pynotset, changes_to := Py.pynotset }

/-- A callback body that touches nothing and succeeds. -/
def idBody : HookBody := fun i => Except.ok i

/-- A callback body that raises an application error. -/
def boomBody : HookBody := fun _ => Except.error "boom"

/-- A class with no hooked methods and no foreign-key fields. -/
def emptyClass : ModelClass := { fkFields := [], methodsList := [] }

/-- A class whose single hooked method fires unconditionally on the given
event and raises. -/
def boomClass (ev : String) : ModelClass :=
  { fkFields := [],
    methodsList := [{ name := "boom", specs := [defaultSpec ev], body := boomBody }] }

/-- A never-persisted instance with one field. -/
def freshInst : Instance :=
  { attrs := [("x", Py.pyint 1)], adding := true,
    initial_state := [("x", Py.pyint 1)] }

/-- An already persisted instance with one field. -/
def persistedInst : Instance :=
  { attrs := [("x", Py.pyint 1)], adding := false,
    initial_state := [("x", Py.pyint 1)] }

theorem pyEq_wildcard_iff (x : Py) : pyEq x (Py.pystr "*") = true ↔ x = Py.pystr "*" := by
  cases x <;> simp [pyEq]

theorem pyEq_pyfunc_iff (x : Py) (k : Nat) : pyEq x (Py.pyfunc k) = true ↔ x = Py.pyfunc k := by
  cases x <;> simp [pyEq]

theorem pyIsNotSet_iff (x : Py) : pyIsNotSet x = true ↔ x = Py.pynotset := by
  cases x <;> simp [pyIsNotSet]

theorem withPre_trace (t : List Action) (o : Outcome) :
    (o.withPre t).trace = t ++ o.trace := by
  cases o <;> rfl

theorem andThen_ok (i : Instance) (t : List Action) (f : Instance → Outcome) :
    (Outcome.ok i t).andThen f = (f i).withPre t := rfl

theorem andThen_err (e : String) (i : Instance) (t : List Action) (f : Instance → Outcome) :
    (Outcome.err e i t).andThen f = .err e i t := rfl

/-- The dispatcher's own traces consist of hook invocations only: the
delegate and snapshot markers are emitted by the save/delete wrappers. -/
def onlyHookCalls (t : List Action) : Prop :=
  ∀ a ∈ t, ∃ n, a = Action.hookCalled n

theorem onlyHookCalls_nil : onlyHookCalls [] := by
  intro a ha
  simp at ha

theorem onlyHookCalls_append {t1 t2 : List Action}
    (h1 : onlyHookCalls t1) (h2 : onlyHookCalls t2) : onlyHookCalls (t1 ++ t2) := by
  intro a ha
  rcases List.mem_append.mp ha with h | h
  · exact h1 a h
  · exact h2 a h

theorem callMethod_only (m : Method) (i : Instance) :
    onlyHookCalls (callMethod m i).trace := by
  intro a ha
  unfold callMethod at ha
  cases hb : m.body i <;> rw [hb] at ha <;> simp [Outcome.trace] at ha <;>
    exact ⟨m.name, ha⟩

theorem andThen_only {o : Outcome} {f : Instance → Outcome}
    (ho : onlyHookCalls o.trace) (hf : ∀ j, onlyHookCalls (f j).trace) :
    onlyHookCalls (o.andThen f).trace := by
  cases o with
  | ok i t =>
    rw [andThen_ok, withPre_trace]
    exact onlyHookCalls_append ho (hf i)
  | err e i t => exact ho

theorem runAnyFields_only (c : ModelClass) (m : Method) (spec : HookSpec) :
    ∀ (fs : List String) (i : Instance), onlyHookCalls (runAnyFields c m spec fs i).trace := by
  intro fs
  induction fs with
  | nil => intro i; exact onlyHookCalls_nil
  | cons f rest ih =>
    intro i
    unfold runAnyFields
    by_cases h : check_callback_conditions c i f spec = true
    · simp only [h, if_true]
      exact andThen_only (callMethod_only m i) ih
    · simp only [h, if_false]
      exact ih i

theorem runOneSpec_only (c : ModelClass) (m : Method) (spec : HookSpec) (i : Instance) :
    onlyHookCalls (runOneSpec c m spec i).trace := by
  unfold runOneSpec
  split
  · split
    · exact callMethod_only m i
    · exact onlyHookCalls_nil
  · split
    · exact runAnyFields_only c m spec _ i
    · exact callMethod_only m i

theorem runSpecList_only (c : ModelClass) (m : Method) :
    ∀ (specs : List HookSpec) (i : Instance), onlyHookCalls (runSpecList c m specs i).trace := by
  intro specs
  induction specs with
  | nil => intro i; exact onlyHookCalls_nil
  | cons s rest ih =>
    intro i
    exact andThen_only (runOneSpec_only c m s i) ih

theorem runMethodList_only (c : ModelClass) :
    ∀ (ms : List Method) (i : Instance), onlyHookCalls (runMethodList c ms i).trace := by
  intro ms
  induction ms with
  | nil => intro i; exact onlyHookCalls_nil
  | cons m rest ih =>
    intro i
    exact andThen_only (runSpecList_only c m m.specs i) ih

theorem run_hooked_methods_only (c : ModelClass) (i : Instance) (ev : String) :
    onlyHookCalls (run_hooked_methods c i ev).trace :=
  runMethodList_only c _ i

theorem not_delegateSave_of_only {t : List Action} (h : onlyHookCalls t) :
    Action.delegateSave ∉ t := by
  intro hmem
  rcases h _ hmem with ⟨n, hn⟩
  cases hn

theorem not_delegateDelete_of_only {t : List Action} (h : onlyHookCalls t) :
    Action.delegateDelete ∉ t := by
  intro hmem
  rcases h _ hmem with ⟨n, hn⟩
  cases hn

/-- C2: a save on a previously unpersisted entity dispatches
`before_create`, `before_save`, the delegate save, `after_save`,
`after_create` in that order and then refreshes the snapshot; on a
previously persisted entity the same with `before_update`/`after_update`;
a delete dispatches `before_delete`, the delegate delete, `after_delete`
with no snapshot refresh. -/
theorem save_delete_event_order (c : ModelClass) :
    (∀ (i i1 i2 i4 i5 : Instance) (t1 t2 t4 t5 : List Action),
      i.adding = true →
      run_hooked_methods c i BEFORE_CREATE = .ok i1 t1 →
      run_hooked_methods c i1 BEFORE_SAVE = .ok i2 t2 →
      run_hooked_methods c (delegateSave i2) AFTER_SAVE = .ok i4 t4 →
      run_hooked_methods c i4 AFTER_CREATE = .ok i5 t5 →
      save c i false =
        .ok (refreshSnapshot c i5)
          (t1 ++ t2 ++ [Action.delegateSave] ++ t4 ++ t5 ++ [Action.snapshotRefresh])) ∧
    (∀ (i i1 i2 i4 i5 : Instance) (t1 t2 t4 t5 : List Action),
      i.adding = false →
      run_hooked_methods c i BEFORE_UPDATE = .ok i1 t1 →
      run_hooked_methods c i1 BEFORE_SAVE = .ok i2 t2 →
      run_hooked_methods c (delegateSave i2) AFTER_SAVE = .ok i4 t4 →
      run_hooked_methods c i4 AFTER_UPDATE = .ok i5 t5 →
      save c i false =
        .ok (refreshSnapshot c i5)
          (t1 ++ t2 ++ [Action.delegateSave] ++ t4 ++ t5 ++ [Action.snapshotRefresh])) ∧
    (∀ (i i1 i3 : Instance) (t1 t3 : List Action),
      run_hooked_methods c i BEFORE_DELETE = .ok i1 t1 →
      run_hooked_methods c i1 AFTER_DELETE = .ok i3 t3 →
      delete c i = .ok i3 (t1 ++ [Action.delegateDelete] ++ t3)) := by
  refine ⟨?_, ?_, ?_⟩
  · intro i i1 i2 i4 i5 t1 t2 t4 t5 hadd h1 h2 h3 h4
    simp [save, clear_watched_fk_model_cache, hadd, h1, h2, h3, h4,
      Outcome.andThen, Outcome.withPre, List.append_assoc]
  · intro i i1 i2 i4 i5 t1 t2 t4 t5 hadd h1 h2 h3 h4
    simp [save, clear_watched_fk_model_cache, hadd, h1, h2, h3, h4,
      Outcome.andThen, Outcome.withPre, List.append_assoc]
  · intro i i1 i3 t1 t3 h1 h2
    simp [delete, h1, h2, Outcome.andThen, Outcome.withPre, List.append_assoc]

/-- Witness for C2: concrete runs of all three operation shapes on a
class with no hooks (every dispatcher phase succeeds with an empty
trace). -/
theorem save_delete_event_order_witness :
    (save emptyClass freshInst false =
      .ok (refreshSnapshot emptyClass (delegateSave freshInst))
        ([] ++ [] ++ [Action.delegateSave] ++ [] ++ [] ++ [Action.snapshotRefresh])) ∧
    (save emptyClass persistedInst false =
      .ok (refreshSnapshot emptyClass (delegateSave persistedInst))
        ([] ++ [] ++ [Action.delegateSave] ++ [] ++ [] ++ [Action.snapshotRefresh])) ∧
    (delete emptyClass freshInst =
      .ok freshInst ([] ++ [Action.delegateDelete] ++ [])) :=
  ⟨(save_delete_event_order emptyClass).1 freshInst freshInst freshInst
      (delegateSave freshInst) (delegateSave freshInst) [] [] [] [] rfl rfl rfl rfl rfl,
   (save_delete_event_order emptyClass).2.1 persistedInst persistedInst persistedInst
      (delegateSave persistedInst) (delegateSave persistedInst) [] [] [] [] rfl rfl rfl rfl rfl,
   (save_delete_event_order emptyClass).2.2 freshInst freshInst freshInst [] [] rfl rfl⟩

/-- C3: an error raised in a before-event hook propagates out of
save/delete with the delegate never invoked (no persistence step in the
trace); an error in an after-event hook propagates after the delegate has
already run (the persistence step is in the trace). -/
theorem hook_error_propagation (c : ModelClass) :
    (∀ (i ie : Instance) (e : String) (te : List Action),
      run_hooked_methods c i (if i.adding then BEFORE_CREATE else BEFORE_UPDATE) = .err e ie te →
      save c i false = .err e ie te ∧ Action.delegateSave ∉ te) ∧
    (∀ (i i1 ie : Instance) (t1 : List Action) (e : String) (te : List Action),
      run_hooked_methods c i (if i.adding then BEFORE_CREATE else BEFORE_UPDATE) = .ok i1 t1 →
      run_hooked_methods c i1 BEFORE_SAVE = .err e ie te →
      save c i false = .err e ie (t1 ++ te) ∧ Action.delegateSave ∉ t1 ++ te) ∧
    (∀ (i i1 i2 ie : Instance) (t1 t2 : List Action) (e : String) (te : List Action),
      run_hooked_methods c i (if i.adding then BEFORE_CREATE else BEFORE_UPDATE) = .ok i1 t1 →
      run_hooked_methods c i1 BEFORE_SAVE = .ok i2 t2 →
      run_hooked_methods c (delegateSave i2) AFTER_SAVE = .err e ie te →
      save c i false = .err e ie (t1 ++ t2 ++ [Action.delegateSave] ++ te) ∧
        Action.delegateSave ∈ t1 ++ t2 ++ [Action.delegateSave] ++ te) ∧
    (∀ (i i1 i2 i4 ie : Instance) (t1 t2 t4 : List Action) (e : String) (te : List Action),
      run_hooked_methods c i (if i.adding then BEFORE_CREATE else BEFORE_UPDATE) = .ok i1 t1 →
      run_hooked_methods c i1 BEFORE_SAVE = .ok i2 t2 →
      run_hooked_methods c (delegateSave i2) AFTER_SAVE = .ok i4 t4 →
      run_hooked_methods c i4 (if i.adding then AFTER_CREATE else AFTER_UPDATE) = .err e ie te →
      save c i false = .err e ie (t1 ++ t2 ++ [Action.delegateSave] ++ t4 ++ te) ∧
        Action.delegateSave ∈ t1 ++ t2 ++ [Action.delegateSave] ++ t4 ++ te) ∧
    (∀ (i ie : Instance) (e : String) (te : List Action),
      run_hooked_methods c i BEFORE_DELETE = .err e ie te →
      delete c i = .err e ie te ∧ Action.delegateDelete ∉ te) ∧
    (∀ (i i1 ie : Instance) (t1 : List Action) (e : String) (te : List Action),
      run_hooked_methods c i BEFORE_DELETE = .ok i1 t1 →
      run_hooked_methods c i1 AFTER_DELETE = .err e ie te →
      delete c i = .err e ie (t1 ++ [Action.delegateDelete] ++ te) ∧
        Action.delegateDelete ∈ t1 ++ [Action.delegateDelete] ++ te) := by
  have honly : ∀ (j : Instance) (ev : String) (e : String) (je : Instance) (te : List Action),
      run_hooked_methods c j ev = .err e je te → onlyHookCalls te := by
    intro j ev e je te h
    have h2 := run_hooked_methods_only c j ev
    rw [h] at h2
    exact h2
  have honlyOk : ∀ (j : Instance) (ev : String) (je : Instance) (t : List Action),
      run_hooked_methods c j ev = .ok je t → onlyHookCalls t := by
    intro j ev je t h
    have h2 := run_hooked_methods_only c j ev
    rw [h] at h2
    exact h2
  refine ⟨?_, ?_, ?_, ?_, ?_, ?_⟩
  · intro i ie e te h1
    refine ⟨?_, not_delegateSave_of_only (honly i _ e ie te h1)⟩
    simp [save, clear_watched_fk_model_cache, h1, Outcome.andThen, Outcome.withPre]
  · intro i i1 ie t1 e te h1 h2
    refine ⟨?_, not_delegateSave_of_only
      (onlyHookCalls_append (honlyOk i _ i1 t1 h1) (honly i1 _ e ie te h2))⟩
    simp [save, clear_watched_fk_model_cache, h1, h2, Outcome.andThen, Outcome.withPre]
  · intro i i1 i2 ie t1 t2 e te h1 h2 h3
    constructor
    · simp [save, clear_watched_fk_model_cache, h1, h2, h3,
        Outcome.andThen, Outcome.withPre, List.append_assoc]
    · simp
  · intro i i1 i2 i4 ie t1 t2 t4 e te h1 h2 h3 h4
    constructor
    · simp [save, clear_watched_fk_model_cache, h1, h2, h3, h4,
        Outcome.andThen, Outcome.withPre, List.append_assoc]
    · simp
  · intro i ie e te h1
    refine ⟨?_, not_delegateDelete_of_only (honly i _ e ie te h1)⟩
    simp [delete, h1, Outcome.andThen, Outcome.withPre]
  · intro i i1 ie t1 e te h1 h2
    constructor
    · simp [delete, h1, h2, Outcome.andThen, Outcome.withPre, List.append_assoc]
    · simp

/-- Witness for C3: a hook that raises, placed on each lifecycle event in
turn; the save/delete propagates the error, without the delegate step for
the before events and after it for the after events. -/
theorem hook_error_propagation_witness :
    (save (boomClass BEFORE_CREATE) freshInst false =
        .err "boom" freshInst [Action.hookCalled "boom"] ∧
      Action.delegateSave ∉ [Action.hookCalled "boom"]) ∧
    (save (boomClass BEFORE_SAVE) freshInst false =
        .err "boom" freshInst ([] ++ [Action.hookCalled "boom"]) ∧
      Action.delegateSave ∉ [] ++ [Action.hookCalled "boom"]) ∧
    (save (boomClass AFTER_SAVE) freshInst false =
        .err "boom" (delegateSave freshInst)
          ([] ++ [] ++ [Action.delegateSave] ++ [Action.hookCalled "boom"]) ∧
      Action.delegateSave ∈ [] ++ [] ++ [Action.delegateSave] ++ [Action.hookCalled "boom"]) ∧
    (save (boomClass AFTER_CREATE) freshInst false =
        .err "boom" (delegateSave freshInst)
          ([] ++ [] ++ [Action.delegateSave] ++ [] ++ [Action.hookCalled "boom"]) ∧
      Action.delegateSave ∈
        [] ++ [] ++ [Action.delegateSave] ++ [] ++ [Action.hookCalled "boom"]) ∧
    (delete (boomClass BEFORE_DELETE) freshInst =
        .err "boom" freshInst [Action.hookCalled "boom"] ∧
      Action.delegateDelete ∉ [Action.hookCalled "boom"]) ∧
    (delete (boomClass AFTER_DELETE) freshInst =
        .err "boom" freshInst ([] ++ [Action.delegateDelete] ++ [Action.hookCalled "boom"]) ∧
      Action.delegateDelete ∈ [] ++ [Action.delegateDelete] ++ [Action.hookCalled "boom"]) :=
  ⟨(hook_error_propagation (boomClass BEFORE_CREATE)).1 freshInst freshInst "boom"
      [Action.hookCalled "boom"] rfl,
   (hook_error_propagation (boomClass BEFORE_SAVE)).2.1 freshInst freshInst freshInst []
      "boom" [Action.hookCalled "boom"] rfl rfl,
   (hook_error_propagation (boomClass AFTER_SAVE)).2.2.1 freshInst freshInst freshInst
      (delegateSave freshInst) [] [] "boom" [Action.hookCalled "boom"] rfl rfl rfl,
   (hook_error_propagation (boomClass AFTER_CREATE)).2.2.2.1 freshInst freshInst freshInst
      (delegateSave freshInst) (delegateSave freshInst) [] [] [] "boom"
      [Action.hookCalled "boom"] rfl rfl rfl rfl,
   (hook_error_propagation (boomClass BEFORE_DELETE)).2.2.2.2.1 freshInst freshInst "boom"
      [Action.hookCalled "boom"] rfl,
   (hook_error_propagation (boomClass AFTER_DELETE)).2.2.2.2.2 freshInst freshInst freshInst
      [] "boom" [Action.hookCalled "boom"] rfl rfl⟩

/-- C8: a save carrying the `skip_hooks` flag invokes no hook at all and
still performs the delegated persistence write. -/
theorem skip_hooks_bypass (c : ModelClass) (i : Instance) :
    save c i true = .ok (delegateSave i) [Action.delegateSave] ∧
    (∀ n, Action.hookCalled n ∉ (save c i true).trace) ∧
    Action.delegateSave ∈ (save c i true).trace := by
  refine ⟨rfl, ?_, ?_⟩
  · intro n hmem
    simp [save, Outcome.trace] at hmem
  · simp [save, Outcome.trace]

theorem pyIsNone_iff (x : Py) : pyIsNone x = true ↔ x = Py.pynone := by
  cases x <;> simp [pyIsNone]

/-- C4: registration raises at decoration time exactly when the event
name is not one of the 8 lifecycle events, or `has_changed` is given and
not a boolean, or `when` is given and not a string, or `when_any` is
given and is not a list, is empty, or holds a non-string, or both
selectors are given; every other spec decorates without raising. -/
theorem decoration_validation_iff :
    VALID_HOOKS.length = 8 ∧
    ∀ r : RawHookSpec,
      (∃ s, hook r = Except.ok s) ↔
        (pyIn r.hook_name validHooksPy = true ∧
         (r.has_changed = Py.pynone ∨ isBool r.has_changed = true) ∧
         (r.when = Py.pynone ∨ isStr r.when = true) ∧
         (r.when_any = Py.pynone ∨
           ∃ xs, r.when_any = Py.pylist xs ∧ xs ≠ [] ∧ ∀ x ∈ xs, isStr x = true) ∧
         ¬ (r.when ≠ Py.pynone ∧ r.when_any ≠ Py.pynone)) := by
  refine ⟨rfl, ?_⟩
  intro r
  have hmap : (∃ s, hook r = Except.ok s) ↔ validate_hook_params r = Except.ok () := by
    unfold hook
    cases hv : validate_hook_params r with
    | ok u =>
      cases u
      simp [Except.map]
    | error e =>
      simp [Except.map]
  rw [hmap]
  unfold validate_hook_params
  by_cases hA : pyIn r.hook_name validHooksPy = true
  · simp only [hA, not_true, if_false]
    by_cases hB : pyIsNone r.has_changed = true ∨ isBool r.has_changed = true
    · have hBn : ¬ (¬ pyIsNone r.has_changed = true ∧ ¬ isBool r.has_changed = true) := by
        tauto
      rw [if_neg hBn]
      by_cases hC : pyIsNone r.when = true ∨ isStr r.when = true
      · have hCn : ¬ (¬ pyIsNone r.when = true ∧ ¬ isStr r.when = true) := by
          tauto
        rw [if_neg hCn]
        by_cases hD : pyIsNone r.when_any = true
        · rw [if_neg (not_not_intro hD)]
          have hDe : r.when_any = Py.pynone := (pyIsNone_iff _).mp hD
          simp only [pyIsNone_iff] at hB hC
          simp [hA, hB, hC, hDe]
        · rw [if_pos hD]
          have hDn : r.when_any ≠ Py.pynone := by
            intro h
            exact hD ((pyIsNone_iff _).mpr h)
          cases hwa : r.when_any with
          | pylist xs =>
            dsimp only
            by_cases hlen : (xs.length == 0) = true
            · rw [if_pos hlen]
              have hnil : xs = [] := by
                cases xs with
                | nil => rfl
                | cons a as => simp at hlen
              subst hnil
              constructor
              · intro h
                exact Except.noConfusion h
              · rintro ⟨-, -, -, hlist, -⟩
                rcases hlist with h | ⟨ys, hys, hne, -⟩
                · exact Py.noConfusion h
                · injection hys with h2
                  exact absurd h2.symm hne
            · rw [if_neg hlen]
              by_cases hstr : xs.any (fun x => !(isStr x)) = true
              · rw [if_pos hstr]
                rcases List.any_eq_true.mp hstr with ⟨x, hx, hxs⟩
                constructor
                · intro h
                  exact Except.noConfusion h
                · rintro ⟨-, -, -, hlist, -⟩
                  rcases hlist with h | ⟨ys, hys, -, hall⟩
                  · exact Py.noConfusion h
                  · injection hys with h2
                    subst h2
                    have := hall x hx
                    simp [this] at hxs
              · rw [if_neg hstr]
                by_cases hW : pyIsNone r.when = true
                · rw [if_neg (not_not_intro hW)]
                  have hWe : r.when = Py.pynone := (pyIsNone_iff _).mp hW
                  simp only [pyIsNone_iff] at hB
                  constructor
                  · intro _
                    refine ⟨trivial, hB, Or.inl hWe, Or.inr ⟨xs, rfl, ?_, ?_⟩, ?_⟩
                    · intro h
                      rw [h] at hlen
                      simp at hlen
                    · intro x hx
                      by_contra hxx
                      have : xs.any (fun x => !(isStr x)) = true :=
                        List.any_eq_true.mpr ⟨x, hx, by simp [hxx]⟩
                      exact hstr this
                    · rintro ⟨h1, -⟩
                      exact h1 hWe
                  · intro _
                    rfl
                · rw [if_pos hW]
                  have hWn : r.when ≠ Py.pynone := by
                    intro h
                    exact hW ((pyIsNone_iff _).mpr h)
                  constructor
                  · intro h
                    exact Except.noConfusion h
                  · rintro ⟨-, -, -, -, hboth⟩
                    exact absurd ⟨hWn, fun h => Py.noConfusion h⟩ hboth
          | pynone => exact absurd hwa hDn
          | pystr s =>
            constructor
            · intro h
              exact Except.noConfusion h
            · rintro ⟨-, -, -, hlist, -⟩
              rcases hlist with h | ⟨ys, hys, -, -⟩
              · exact Py.noConfusion h
              · exact Py.noConfusion hys
          | pyint n =>
            constructor
            · intro h
              exact Except.noConfusion h
            · rintro ⟨-, -, -, hlist, -⟩
              rcases hlist with h | ⟨ys, hys, -, -⟩
              · exact Py.noConfusion h
              · exact Py.noConfusion hys
          | pybool b =>
            constructor
            · intro h
              exact Except.noConfusion h
            · rintro ⟨-, -, -, hlist, -⟩
              rcases hlist with h | ⟨ys, hys, -, -⟩
              · exact Py.noConfusion h
              · exact Py.noConfusion hys
          | pytuple xs =>
            constructor
            · intro h
              exact Except.noConfusion h
            · rintro ⟨-, -, -, hlist, -⟩
              rcases hlist with h | ⟨ys, hys, -, -⟩
              · exact Py.noConfusion h
              · exact Py.noConfusion hys
          | pyobj fs =>
            constructor
            · intro h
              exact Except.noConfusion h
            · rintro ⟨-, -, -, hlist, -⟩
              rcases hlist with h | ⟨ys, hys, -, -⟩
              · exact Py.noConfusion h
              · exact Py.noConfusion hys
          | pyfunc k =>
            constructor
            · intro h
              exact Except.noConfusion h
            · rintro ⟨-, -, -, hlist, -⟩
              rcases hlist with h | ⟨ys, hys, -, -⟩
              · exact Py.noConfusion h
              · exact Py.noConfusion hys
          | pynotset =>
            constructor
            · intro h
              exact Except.noConfusion h
            · rintro ⟨-, -, -, hlist, -⟩
              rcases hlist with h | ⟨ys, hys, -, -⟩
              · exact Py.noConfusion h
              · exact Py.noConfusion hys
      · have hCn : ¬ pyIsNone r.when = true ∧ ¬ isStr r.when = true := by
          tauto
        rw [if_pos hCn]
        simp only [pyIsNone_iff] at hCn
        constructor
        · intro h
          exact Except.noConfusion h
        · rintro ⟨-, -, hC2, -, -⟩
          exact absurd hC2 (by tauto)
    · have hBn : ¬ pyIsNone r.has_changed = true ∧ ¬ isBool r.has_changed = true := by
        tauto
      rw [if_pos hBn]
      simp only [pyIsNone_iff] at hBn
      constructor
      · intro h
        exact Except.noConfusion h
      · rintro ⟨-, hB2, -, -, -⟩
        exact absurd hB2 (by tauto)
  · rw [if_pos hA]
    constructor
    · intro h
      exact Except.noConfusion h
    · rintro ⟨hA2, -⟩
      exact absurd hA2 hA

/-- A fully valid raw spec:
`hook("after_save", when_any=["first_name"], has_changed=True)`. -/
def validRaw : RawHookSpec :=
  { hook_name := Py.pystr "after_save", when := Py.pynone,
    when_any := Py.pylist [Py.pystr "first_name"], was := Py.pystr "*",
    is_now := Py.pystr "*", has_changed := Py.pybool true,
    is_not := Py.pynotset, was_not := Py.pynotset, changes_to := Py.pynotset }

/-- Witness for C4: a concrete spec violating none of the rules
decorates without raising. -/
theorem decoration_validation_iff_witness :
    ∃ s, hook validRaw = Except.ok s :=
  (decoration_validation_iff.2 validRaw).mpr
    ⟨rfl, Or.inr rfl, Or.inl rfl,
     Or.inr ⟨[Py.pystr "first_name"], rfl, by simp, by simp [isStr]⟩,
     by simp [validRaw]⟩

/-- Witness for C8: the concrete bypassed save on the one-field
instance. -/
theorem skip_hooks_bypass_witness :
    save emptyClass freshInst true =
      Outcome.ok (delegateSave freshInst) [Action.delegateSave] ∧
    Action.hookCalled "notify" ∉ (save emptyClass freshInst true).trace ∧
    Action.delegateSave ∈ (save emptyClass freshInst true).trace :=
  ⟨(skip_hooks_bypass emptyClass freshInst).1,
   (skip_hooks_bypass emptyClass freshInst).2.1 "notify",
   (skip_hooks_bypass emptyClass freshInst).2.2⟩

/-- Behaviour of the function objects appearing in the fixtures below:
tag 0 is the test suite's `lambda v: len(v) > 10`, tag 1 its
`lambda v: len(v) > 5`; other tags are arbitrary predicates. -/
def predEnv : Nat → Py → Bool := fun k v =>
  match v with
  | .pystr s => if k == 0 then decide (s.length > 10) else decide (s.length > 5)
  | _ => false

/-- The instance of the repository's own test
`test_email_long_password_after_save`: the password was changed from
`"donuts"` to a 33-character string. -/
def pwInst : Instance :=
  { attrs := [("password", Py.pystr "very_long_but_not_secure_password")],
    adding := false,
    initial_state := [("password", Py.pystr "donuts")] }

/-- The spec of `@hook("after_save", when="password",
is_now=lambda v: len(v) > 10)` from the test models. -/
def lambdaIsNowSpec : HookSpec :=
  { hook_name := "after_save", when := some "password", when_any := none,
    was := Py.pystr "*", is_now := Py.pyfunc 0, has_changed := none,
    is_not := Py.pynotset, was_not := Py.pynotset, changes_to := Py.pynotset }

/-- The spec of `@hook("after_update", when="password",
was=lambda v: len(v) > 5, ...)` from the test models, restricted to its
`was` condition. -/
def lambdaWasSpec : HookSpec :=
  { hook_name := "after_update", when := some "password", when_any := none,
    was := Py.pyfunc 1, is_now := Py.pystr "*", has_changed := none,
    is_not := Py.pynotset, was_not := Py.pynotset, changes_to := Py.pynotset }

/-- C1: the source's current-value and prior-value checks never invoke a
callable condition — `spec.is_now in (value, "*")` is a plain membership
test, and a function object equals neither a string nor `"*"` — so on the
repository's own test scenario (password changed to a 33-character
string, `is_now=lambda v: len(v) > 10`) the code's check yields false
while the spec's predicate semantics yields true; symmetrically for `was`
against the initial value. -/
theorem value_condition_predicates_not_invoked :
    check_is_now_condition emptyClass pwInst "password" lambdaIsNowSpec = false ∧
    claimValueCheck predEnv (Py.pyfunc 0) (Py.pystr "very_long_but_not_secure_password") = true ∧
    check_was_condition emptyClass pwInst "password" lambdaWasSpec = false ∧
    claimValueCheck predEnv (Py.pyfunc 1) (Py.pystr "donuts") = true :=
  ⟨rfl, rfl, rfl, rfl⟩

/-- A spec whose exclusion condition is a function object
(`is_not=<lambda>`). -/
def fnExclSpec : HookSpec :=
  { hook_name := "after_update", when := some "callback", when_any := none,
    was := Py.pystr "*", is_now := Py.pystr "*", has_changed := none,
    is_not := Py.pyfunc 7, was_not := Py.pynotset, changes_to := Py.pynotset }

/-- An instance whose field value is the very same function object the
exclusion names. -/
def fnValInst : Instance :=
  { attrs := [("callback", Py.pyfunc 7)], adding := false,
    initial_state := [("callback", Py.pyfunc 7)] }

/-- C5 counterexample: a callable supplied as `is_not` is never invoked,
but it is not true that the check "always passes for it" — when the
stored value is that same function object, `value != is_not` is false and
the check fails, i.e. the callable does cause exclusion. -/
theorem excluded_callable_can_exclude :
    fnExclSpec.is_not = Py.pyfunc 7 ∧
    current_value emptyClass fnValInst "callback" = Py.pyfunc 7 ∧
    check_is_not_condition emptyClass fnValInst "callback" fnExclSpec = false :=
  ⟨rfl, rfl, rfl⟩

/-- C5 (amended): the excluded checks pass iff the condition is the
`NotSet` marker or the relevant value is unequal (Python `!=`) to it; a
callable supplied there is never invoked, so it causes exclusion exactly
when the stored value is that same function object — never through its
truth value. -/
theorem excluded_checks_literal_inequality :
    (∀ (c : ModelClass) (i : Instance) (f : String) (s : HookSpec),
      check_is_not_condition c i f s = true ↔
        (s.is_not = Py.pynotset ∨ pyEq (current_value c i f) s.is_not = false)) ∧
    (∀ (c : ModelClass) (i : Instance) (f : String) (s : HookSpec),
      check_was_not_condition c i f s = true ↔
        (s.was_not = Py.pynotset ∨ pyEq (initial_value c i f) s.was_not = false)) ∧
    (∀ (c : ModelClass) (i : Instance) (f : String) (s : HookSpec) (k : Nat),
      s.is_not = Py.pyfunc k →
        (check_is_not_condition c i f s = false ↔ current_value c i f = Py.pyfunc k)) ∧
    (∀ (c : ModelClass) (i : Instance) (f : String) (s : HookSpec) (k : Nat),
      s.was_not = Py.pyfunc k →
        (check_was_not_condition c i f s = false ↔ initial_value c i f = Py.pyfunc k)) := by
  refine ⟨?_, ?_, ?_, ?_⟩
  · intro c i f s
    simp [check_is_not_condition, pyIsNotSet_iff, Bool.or_eq_true, Bool.not_eq_true']
  · intro c i f s
    simp [check_was_not_condition, pyIsNotSet_iff, Bool.or_eq_true, Bool.not_eq_true']
  · intro c i f s k hk
    simp [check_is_not_condition, hk, pyIsNotSet, pyEq_pyfunc_iff]
  · intro c i f s k hk
    simp [check_was_not_condition, hk, pyIsNotSet, pyEq_pyfunc_iff]

/-- Witness for the amended C5 theorem: the identity-equality clause at
the concrete callable-valued field. -/
theorem excluded_checks_literal_inequality_witness :
    fnExclSpec.is_not = Py.pyfunc 7 ∧
    (check_is_not_condition emptyClass fnValInst "callback" fnExclSpec = false ↔
      current_value emptyClass fnValInst "callback" = Py.pyfunc 7) :=
  ⟨rfl, excluded_checks_literal_inequality.2.2.1 emptyClass fnValInst "callback" fnExclSpec 7 rfl⟩

/-- An undecorated callback, target of a stack of `@hook` decorators. -/
def stackedTarget : HookTarget := HookTarget.plainFn "stacked" idBody

/-- C6 counterexample: stacking `@hook(... before_save ...)` (written
first, on top) above `@hook(... after_save ...)` (written last, at the
bottom) accumulates `[after_save-spec, before_save-spec]`: the dispatcher
checks the bottom-most, last-written spec first, not the spec written
first. -/
theorem stacked_specs_not_source_order :
    (applyHookStack [defaultSpec "before_save", defaultSpec "after_save"] stackedTarget).specsOf
      = [defaultSpec "after_save", defaultSpec "before_save"] ∧
    defaultSpec "after_save" ≠ defaultSpec "before_save" := by
  constructor
  · rfl
  · intro h
    have h2 := congrArg HookSpec.hook_name h
    simp [defaultSpec] at h2

theorem HookedMethodInit_specs (f : HookTarget) (s : HookSpec) :
    (HookedMethodInit f s).specs = f.specsOf ++ [s] := by
  cases f <;> rfl

/-- C6 (amended): the accumulated spec list is the decorator application
order — the reverse of the source top-to-bottom declaration order — so
the decorator written closest to the function (applied first) is checked
and fired first. -/
theorem stacked_specs_application_order (stack : List HookSpec) (n : String) (b : HookBody) :
    (applyHookStack stack (HookTarget.plainFn n b)).specsOf = stack.reverse := by
  induction stack with
  | nil => rfl
  | cons s rest ih =>
    show (HookedMethodInit (applyHookStack rest (HookTarget.plainFn n b)) s).specs = _
    rw [HookedMethodInit_specs, ih, List.reverse_cons]

theorem runAnyFields_pure (c : ModelClass) (m : Method) (spec : HookSpec)
    (hb : ∀ j, m.body j = Except.ok j) :
    ∀ (fs : List String) (i : Instance),
      runAnyFields c m spec fs i =
        .ok i ((fs.filter (fun f => check_callback_conditions c i f spec)).map
          (fun _ => Action.hookCalled m.name)) := by
  intro fs
  induction fs with
  | nil => intro i; rfl
  | cons f rest ih =>
    intro i
    unfold runAnyFields
    by_cases h : check_callback_conditions c i f spec = true
    · rw [if_pos h]
      simp [callMethod, hb i, ih i, Outcome.andThen, Outcome.withPre, h]
    · rw [if_neg h, ih i]
      simp [List.filter_cons, h]

/-- C7: a multi-field (`when_any`) spec invokes the hook method once per
watched field whose conditions hold — possibly several times within one
event pass — not at most once in total. -/
theorem when_any_fires_once_per_matching_field
    (c : ModelClass) (m : Method) (spec : HookSpec) (fields : List String)
    (i : Instance) (ev : String)
    (hb : ∀ j, m.body j = Except.ok j)
    (hc : c.methodsList = [m])
    (hs : m.specs = [spec])
    (he : spec.hook_name = ev)
    (hw : spec.when = none)
    (ha : spec.when_any = some fields)
    (hne : fields ≠ []) :
    run_hooked_methods c i ev =
      .ok i ((fields.filter (fun f => check_callback_conditions c i f spec)).map
        (fun _ => Action.hookCalled m.name)) := by
  have hmeths : potentially_hooked_methods c ev = [m] := by
    unfold potentially_hooked_methods collectHooked
    rw [hc]
    simp only [List.foldl_cons, List.foldl_nil]
    rw [hs]
    simp only [List.foldl_cons, List.foldl_nil, dictAppend, he]
    simp [lookupMethods]
  have hempty : fields.isEmpty = false := by
    cases fields with
    | nil => exact absurd rfl hne
    | cons a as => rfl
  unfold run_hooked_methods
  rw [hmeths]
  show (runSpecList c m m.specs i).andThen (runMethodList c []) = _
  rw [hs]
  show ((runOneSpec c m spec i).andThen (runSpecList c m [])).andThen (runMethodList c []) = _
  unfold runOneSpec
  rw [hw, ha]
  simp only [whenTruthy, whenAnyTruthy, hempty, Bool.not_false, if_false, if_true,
    Option.getD_some]
  rw [runAnyFields_pure c m spec hb fields i]
  simp [Outcome.andThen, Outcome.withPre, runSpecList, runMethodList]

/-- The multi-field spec of the witness:
`@hook("after_update", when_any=["first_name", "last_name"])`. -/
def anySpec : HookSpec :=
  { hook_name := "after_update", when := none,
    when_any := some ["first_name", "last_name"],
    was := Py.pystr "*", is_now := Py.pystr "*", has_changed := none,
    is_not := Py.pynotset, was_not := Py.pynotset, changes_to := Py.pynotset }

/-- The hooked method carrying `anySpec`. -/
def anyMethod : Method := { name := "notify", specs := [anySpec], body := idBody }

/-- A class registering only `anyMethod`. -/
def anyClass : ModelClass := { fkFields := [], methodsList := [anyMethod] }

/-- An instance on which both watched fields satisfy the (default)
conditions. -/
def anyInst : Instance :=
  { attrs := [("first_name", Py.pystr "Homer"), ("last_name", Py.pystr "Simpson")],
    adding := false,
    initial_state := [("first_name", Py.pystr "Homer"), ("last_name", Py.pystr "Simpson")] }

/-- Witness for C7: with two watched fields both matching, one
`after_update` pass invokes the method twice. -/
theorem when_any_fires_once_per_matching_field_witness :
    run_hooked_methods anyClass anyInst "after_update" =
      .ok anyInst (((["first_name", "last_name"].filter
        (fun f => check_callback_conditions anyClass anyInst f anySpec))).map
          (fun _ => Action.hookCalled "notify")) ∧
    ((["first_name", "last_name"].filter
        (fun f => check_callback_conditions anyClass anyInst f anySpec))).map
          (fun _ => Action.hookCalled "notify") =
      [Action.hookCalled "notify", Action.hookCalled "notify"] :=
  ⟨when_any_fires_once_per_matching_field anyClass anyMethod anySpec
      ["first_name", "last_name"] anyInst "after_update"
      (fun _ => rfl) rfl rfl rfl rfl rfl (by simp),
   rfl⟩

theorem lookupS_upsert_self (xs : List (String × Py)) (k : String) (v : Py) :
    lookupS (upsert xs k v) k = some v := by
  induction xs with
  | nil => simp [upsert, lookupS]
  | cons hd rest ih =>
    obtain ⟨l, w⟩ := hd
    unfold upsert
    by_cases h : (l == k) = true
    · rw [if_pos h]
      simp [lookupS, h]
    · rw [if_neg h]
      simp [lookupS, h, ih]

theorem lookupS_upsert_ne (xs : List (String × Py)) (k kq : String) (v : Py)
    (h : kq ≠ k) : lookupS (upsert xs k v) kq = lookupS xs kq := by
  induction xs with
  | nil =>
    have hk : (k == kq) = false := by
      simp [Ne.symm h]
    simp [upsert, lookupS, hk]
  | cons hd rest ih =>
    obtain ⟨l, w⟩ := hd
    unfold upsert
    by_cases hlk : (l == k) = true
    · rw [if_pos hlk]
      have hlq : (l == kq) = false := by
        have hlk2 : l = k := by
          simpa using hlk
        simp [hlk2, Ne.symm h]
      simp [lookupS, hlq]
    · rw [if_neg hlk]
      by_cases hlq : (l == kq) = true
      · simp [lookupS, hlq]
      · simp [lookupS, hlq, ih]

theorem lookupS_foldl_upsert_not_mem (g : String → Py) :
    ∀ (ws : List String) (st : List (String × Py)) (w : String), w ∉ ws →
      lookupS (ws.foldl (fun s x => upsert s x (g x)) st) w = lookupS st w := by
  intro ws
  induction ws with
  | nil => intro st w _; rfl
  | cons x rest ih =>
    intro st w hmem
    have hne : w ≠ x := fun h => hmem (h ▸ List.mem_cons_self x rest)
    have hrest : w ∉ rest := fun h => hmem (List.mem_cons_of_mem x h)
    simp only [List.foldl_cons]
    rw [ih (upsert st x (g x)) w hrest, lookupS_upsert_ne st x w (g x) hne]

theorem lookupS_foldl_upsert_mem (g : String → Py) :
    ∀ (ws : List String) (st : List (String × Py)) (w : String), w ∈ ws →
      lookupS (ws.foldl (fun s x => upsert s x (g x)) st) w = some (g w) := by
  intro ws
  induction ws with
  | nil => intro st w hmem; simp at hmem
  | cons x rest ih =>
    intro st w hmem
    simp only [List.foldl_cons]
    by_cases hrest : w ∈ rest
    · exact ih (upsert st x (g x)) w hrest
    · have hwx : w = x := by
        rcases List.mem_cons.mp hmem with h | h
        · exact h
        · exact absurd h hrest
      subst hwx
      rw [lookupS_foldl_upsert_not_mem g rest (upsert st w (g w)) w hrest]
      exact lookupS_upsert_self st w (g w)

theorem foldl_getitem_pynone : ∀ (parts : List String),
    parts.foldl getitem Py.pynone = Py.pynone := by
  intro parts
  induction parts with
  | nil => rfl
  | cons p rest ih =>
    simp only [List.foldl_cons]
    exact ih

/-- C9 (amended): the snapshot holds the resolved current value of every
dotted path appearing in a single-field `when` selector of a registered
hook (not of `when_any` selectors), and dotted-path resolution records
null instead of raising when the relation reference is absent or the
trailing attribute is undefined. -/
theorem snapshot_resolves_watched_when_paths :
    (∀ (c : ModelClass) (i : Instance) (w : String), w ∈ watched_fk_model_fields c →
      lookupS (snapshot_state c i) w = some (current_value c i w)) ∧
    (∀ (i : Instance) (p : String) (rest : List String),
      lookupS i.attrs p = none → resolvePath i (p :: rest) = Py.pynone) ∧
    (∀ (i : Instance) (p q : String) (fields : List (String × Py)),
      lookupS i.attrs p = some (Py.pyobj fields) → lookupS fields q = none →
      resolvePath i [p, q] = Py.pynone) := by
  refine ⟨?_, ?_, ?_⟩
  · intro c i w hmem
    unfold snapshot_state
    exact lookupS_foldl_upsert_mem (fun x => current_value c i x)
      (watched_fk_model_fields c) i.attrs w hmem
  · intro i p rest h
    show rest.foldl getitem ((lookupS i.attrs p).getD Py.pynone) = Py.pynone
    rw [h]
    exact foldl_getitem_pynone rest
  · intro i p q fields hp hq
    show List.foldl getitem ((lookupS i.attrs p).getD Py.pynone) [q] = Py.pynone
    rw [hp]
    simp [getitem, hq]

/-- The spec of a hook watching a dotted path through `when_any`
(`@hook("before_save", when_any=["author.name"])`). -/
def dottedAnySpec : HookSpec :=
  { hook_name := "before_save", when := none, when_any := some ["author.name"],
    was := Py.pystr "*", is_now := Py.pystr "*", has_changed := none,
    is_not := Py.pynotset, was_not := Py.pynotset, changes_to := Py.pynotset }

/-- A class registering only the `when_any`-dotted hook. -/
def dottedAnyClass : ModelClass :=
  { fkFields := [],
    methodsList := [{ name := "watcher", specs := [dottedAnySpec], body := idBody }] }

/-- An instance with an `author` relation whose `name` is set. -/
def authorInst : Instance :=
  { attrs := [("author", Py.pyobj [("name", Py.pystr "bob")])], adding := false,
    initial_state := [("author", Py.pyobj [("name", Py.pystr "bob")])] }

/-- C9 counterexample: a dotted path referenced only through a
`when_any` selector is a referenced relationship path in the claim's
sense, yet `_watched_fk_model_fields` ignores it, so the snapshot records
no value for it. -/
theorem when_any_dotted_path_not_snapshotted :
    "author.name" ∈ claimReferencedDottedPaths dottedAnyClass ∧
    watched_fk_model_fields dottedAnyClass = [] ∧
    lookupS (snapshot_state dottedAnyClass authorInst) "author.name" = none := by
  refine ⟨?_, rfl, rfl⟩
  rw [show claimReferencedDottedPaths dottedAnyClass = ["author.name"] from rfl]
  exact List.mem_singleton.mpr rfl

/-- The spec of a hook watching a dotted path through `when`
(`@hook("after_update", when="organization.name")`). -/
def dottedWhenSpec : HookSpec :=
  { hook_name := "after_update", when := some "organization.name", when_any := none,
    was := Py.pystr "*", is_now := Py.pystr "*", has_changed := none,
    is_not := Py.pynotset, was_not := Py.pynotset, changes_to := Py.pynotset }

/-- A class registering only the `when`-dotted hook. -/
def dottedWhenClass : ModelClass :=
  { fkFields := [],
    methodsList := [{ name := "notify", specs := [dottedWhenSpec], body := idBody }] }

/-- An instance with an `organization` relation whose `name` is set. -/
def orgInst : Instance :=
  { attrs := [("organization", Py.pyobj [("name", Py.pystr "Hogwarts")])],
    adding := false,
    initial_state := [("organization", Py.pyobj [("name", Py.pystr "Hogwarts")])] }

/-- An instance with no `organization` attribute at all. -/
def noRelInst : Instance :=
  { attrs := [("x", Py.pyint 1)], adding := false, initial_state := [("x", Py.pyint 1)] }

/-- An instance whose `organization` relation lacks the `name`
attribute. -/
def orgNoNameInst : Instance :=
  { attrs := [("organization", Py.pyobj [("code", Py.pystr "H")])], adding := false,
    initial_state := [("organization", Py.pyobj [("code", Py.pystr "H")])] }

/-- Witness for the amended C9 theorem: the watched `when` path is
snapshotted with its resolved value, and both missing-relation and
missing-attribute resolutions record null. -/
theorem snapshot_resolves_watched_when_paths_witness :
    lookupS (snapshot_state dottedWhenClass orgInst) "organization.name" =
      some (current_value dottedWhenClass orgInst "organization.name") ∧
    current_value dottedWhenClass orgInst "organization.name" = Py.pystr "Hogwarts" ∧
    resolvePath noRelInst ["organization", "name"] = Py.pynone ∧
    resolvePath orgNoNameInst ["organization", "name"] = Py.pynone :=
  ⟨snapshot_resolves_watched_when_paths.1 dottedWhenClass orgInst "organization.name"
      (by rw [show watched_fk_model_fields dottedWhenClass = ["organization.name"] from rfl]
          exact List.mem_singleton.mpr rfl),
   rfl,
   snapshot_resolves_watched_when_paths.2.1 noRelInst "organization" ["name"] rfl,
   snapshot_resolves_watched_when_paths.2.2 orgNoNameInst "organization" "name"
      [("code", Py.pystr "H")] rfl rfl⟩

theorem lookupMethods_dictAppend (d : List (String × List Method)) (k : String) (m : Method)
    (e : String) :
    lookupMethods (dictAppend d k m) e =
      if (k == e) = true then lookupMethods d e ++ [m] else lookupMethods d e := by
  induction d with
  | nil =>
    by_cases h : (k == e) = true
    · simp [dictAppend, lookupMethods, h]
    · simp [dictAppend, lookupMethods, h]
  | cons hd rest ih =>
    obtain ⟨l, ms⟩ := hd
    unfold dictAppend
    by_cases hlk : (l == k) = true
    · rw [if_pos hlk]
      have hlk2 : l = k := by simpa using hlk
      subst hlk2
      by_cases hle : (l == e) = true
      · simp [lookupMethods, hle]
      · simp [lookupMethods, hle]
    · rw [if_neg hlk]
      by_cases hle : (l == e) = true
      · have hle2 : l = e := by simpa using hle
        have hke : (k == e) = false := by
          simp only [beq_eq_false_iff_ne, ne_eq]
          intro hh
          exact hlk (by simp [hh, hle2])
        simp [lookupMethods, hle, hke]
      · simp [lookupMethods, hle, ih]

theorem lookupMethods_specs_foldl (m : Method) :
    ∀ (specs : List HookSpec) (d : List (String × List Method)) (e : String),
      lookupMethods (specs.foldl (fun d2 s => dictAppend d2 s.hook_name m) d) e =
        lookupMethods d e ++ (specs.filter (fun s => s.hook_name == e)).map (fun _ => m) := by
  intro specs
  induction specs with
  | nil => intro d e; simp
  | cons s rest ih =>
    intro d e
    simp only [List.foldl_cons]
    rw [ih, lookupMethods_dictAppend]
    by_cases h : (s.hook_name == e) = true
    · rw [if_pos h]
      simp [List.filter_cons, h]
    · rw [if_neg h]
      simp [List.filter_cons, h]

theorem lookupMethods_collect (ms : List Method) :
    ∀ (d : List (String × List Method)) (e : String),
      lookupMethods
          (ms.foldl (fun d m => m.specs.foldl (fun d2 s => dictAppend d2 s.hook_name m) d) d)
          e =
        lookupMethods d e ++
          (ms.map (fun m => (m.specs.filter (fun s => s.hook_name == e)).map (fun _ => m))).flatten := by
  induction ms with
  | nil => intro d e; simp
  | cons m rest ih =>
    intro d e
    simp only [List.foldl_cons]
    rw [ih, lookupMethods_specs_foldl]
    simp [List.append_assoc]

/-- A method decorated for two different events: an unconditional
`before_save` spec and an unconditional `after_save` spec. -/
def crossMethod : Method :=
  { name := "notify", specs := [defaultSpec "before_save", defaultSpec "after_save"],
    body := idBody }

/-- A class registering only `crossMethod`. -/
def crossClass : ModelClass := { fkFields := [], methodsList := [crossMethod] }

/-- C10: dispatching event `E` enqueues each method once per spec naming
`E` (the per-event dictionary replicates the method), and each time a
method is processed all of its specs are evaluated — including specs
naming other events — so `crossMethod`, with a single spec naming
`before_save`, fires twice during one `before_save` pass because its
`after_save` spec is evaluated (and matches) there as well. -/
theorem event_dispatch_enumerates_per_spec :
    (∀ (c : ModelClass) (ev : String),
      potentially_hooked_methods c ev =
        (c.methodsList.map
          (fun m => (m.specs.filter (fun s => s.hook_name == ev)).map (fun _ => m))).flatten) ∧
    (crossMethod.specs.filter (fun s => s.hook_name == "before_save")).length = 1 ∧
    run_hooked_methods crossClass freshInst "before_save" =
      .ok freshInst [Action.hookCalled "notify", Action.hookCalled "notify"] := by
  refine ⟨?_, rfl, rfl⟩
  intro c ev
  unfold potentially_hooked_methods collectHooked
  rw [lookupMethods_collect]
  simp [lookupMethods]

end DjangoLifecycle
